import Mathlib

/-!
# Verification of the Mirage orchestration core

Shallow embedding of the pipeline/parameter-resolution engine and the
background task manager of the Mirage framework (`mirage/core/app.py`,
`mirage/core/taskManager.py`, `mirage/core/task.py`, `mirage/core/loader.py`,
`mirage/core/config.py`), together with proofs about the embedded
operations.

Python dictionaries are embedded as insertion-ordered association lists
(`List (String × α)`); in-place mutation is embedded as explicit state
passing; Python exceptions are embedded with `Except`, and, because heap
mutation survives an exception, the state-carrying operations return the
final state alongside the `Except` result.
-/

namespace Mirage

/-! ## Association-list helpers (Python `dict` semantics) -/

/-- `d[k] = v` on an insertion-ordered dict: replace the value at the first
occurrence of `k`, keeping its position, or append `(k, v)` at the end. -/
def setKey {α : Type} : List (String × α) → String → α → List (String × α)
  | [], k, v => [(k, v)]
  | (k', v') :: t, k, v =>
    if k' = k then (k', v) :: t else (k', v') :: setKey t k v

/-- `k in d` on a dict embedded as an association list. -/
def hasKey {α : Type} (l : List (String × α)) (k : String) : Bool :=
  (List.lookup k l).isSome

theorem lookup_setKey_self {α : Type} (l : List (String × α)) (k : String) (v : α) :
    List.lookup k (setKey l k v) = some v := by
  induction l with
  | nil => simp [setKey, List.lookup]
  | cons p t ih =>
    by_cases h : p.1 = k
    · simp [setKey, h, List.lookup]
    · simp only [setKey]
      rw [if_neg (by simpa using h)]
      simp [List.lookup, beq_eq_false_iff_ne, Ne.symm h, ih,
        show (k == p.1) = false from beq_eq_false_iff_ne.mpr (fun hk => h hk.symm)]

theorem lookup_setKey_other {α : Type} (l : List (String × α)) (k k' : String) (v : α)
    (h : k' ≠ k) : List.lookup k' (setKey l k v) = List.lookup k' l := by
  induction l with
  | nil => simp [setKey, List.lookup, beq_eq_false_iff_ne.mpr h]
  | cons p t ih =>
    by_cases hp : p.1 = k
    · subst hp
      simp only [setKey, if_pos rfl]
      simp [List.lookup, beq_eq_false_iff_ne.mpr h]
    · simp only [setKey, if_neg hp]
      by_cases hk' : k' = p.1
      · subst hk'; simp [List.lookup]
      · simp [List.lookup, beq_eq_false_iff_ne.mpr hk', ih]

theorem keys_setKey {α : Type} (l : List (String × α)) (k : String) (v : α) :
    (setKey l k v).map Prod.fst =
      if hasKey l k then l.map Prod.fst else l.map Prod.fst ++ [k] := by
  induction l with
  | nil => simp [setKey, hasKey, List.lookup]
  | cons p t ih =>
    by_cases hp : p.1 = k
    · simp [setKey, hp, hasKey, List.lookup, show (k == k) = true from beq_self_eq_true k]
    · simp only [setKey, if_neg hp, hasKey, List.lookup,
        show (k == p.1) = false from beq_eq_false_iff_ne.mpr (fun hk => hp hk.symm)]
      simp only [hasKey] at ih
      rw [List.map_cons, ih]
      by_cases hlk : (List.lookup k t).isSome = true <;> simp [hlk]

theorem hasKey_setKey_mono {α : Type} (l : List (String × α)) (k k' : String) (v : α)
    (h : hasKey l k' = true) : hasKey (setKey l k v) k' = true := by
  by_cases hk : k' = k
  · subst hk; simp [hasKey, lookup_setKey_self]
  · simpa [hasKey, lookup_setKey_other l k k' v hk] using h

theorem hasKey_iff_mem {α : Type} (l : List (String × α)) (k : String) :
    hasKey l k = true ↔ k ∈ l.map Prod.fst := by
  induction l with
  | nil => simp [hasKey, List.lookup]
  | cons p t ih =>
    by_cases hk : k = p.1
    · simp [hasKey, List.lookup, hk]
    · simp only [hasKey, List.lookup, beq_eq_false_iff_ne.mpr hk, List.map_cons,
        List.mem_cons]
      simp only [hasKey] at ih
      rw [ih]
      exact ⟨Or.inr, fun h => h.resolve_left hk⟩

/-! ## Task manager (`mirage/core/taskManager.py`, `mirage/core/task.py`)

A `Task` is created in state `"stopped"` with no pid and an empty output
file name (`Task.__init__`).  The `function`, `args` and `kwargs` of a task
are opaque to the manager; the function is represented by its name
(only used when `addTask` is called with an empty `name`).  The OS-level
side effects of `start`/`stop` (forking, terminating child processes,
closing file handles) are outside the shallow embedding; the claims
settled here concern only the registry contents and the task states. -/

structure TaskEntry where
  funcName : String
  state : String
  pid : Option Nat
  outputFilename : String
deriving DecidableEq, Repr

/-- `Task(function, taskName, args, kwargs)`: fresh task in state `"stopped"`. -/
def newTask (funcName : String) : TaskEntry :=
  { funcName := funcName, state := "stopped", pid := none, outputFilename := "" }

/-- The task registry `TaskManager.tasks`, an insertion-ordered dict. -/
abbrev TaskRegistry := List (String × TaskEntry)

def taskKeys (t : TaskRegistry) : List String := t.map Prod.fst

/-- The `while taskName in self.tasks` loop of `TaskManager.addTask`,
with explicit fuel.  The Python loop terminates because the candidates
`base`, `base.1`, `base.2`, … are pairwise distinct and the registry is
finite; `keys.length + 1` rounds of the loop are therefore always enough
(proved below), so the fuel-exhausted branch is unreachable. -/
def resolveGo (keys : List String) (base : String) : Nat → Nat → String
  | 0, c => base ++ "." ++ Nat.repr c
  | f + 1, c =>
    let cand := base ++ "." ++ Nat.repr c
    if cand ∈ keys then resolveGo keys base f (c + 1) else cand

def resolveTaskName (keys : List String) (base : String) : String :=
  if base ∈ keys then resolveGo keys base (keys.length + 1) 1 else base

/-- `TaskManager.addTask`: resolve a unique name and store a fresh task
(in state `"stopped"`) under it. -/
def addTask (tasks : TaskRegistry) (funcName : String) (name : String) :
    String × TaskRegistry :=
  let base := if name ≠ "" then name else funcName
  let resolved := resolveTaskName (taskKeys tasks) base
  (resolved, tasks ++ [(resolved, newTask funcName)])

/-- `TaskManager.stopTask`: fails unless the task exists and is `"running"`;
on success the task is deleted from the registry (`del self.tasks[name]`).
The termination of the task's process and of its children is an OS side
effect outside the embedding. -/
def stopTask (tasks : TaskRegistry) (name : String) : Bool × TaskRegistry :=
  match List.lookup name tasks with
  | some t =>
    if t.state = "running" then (true, tasks.eraseP (fun p => p.1 == name))
    else (false, tasks)
  | none => (false, tasks)

/-- The body of `TaskManager.stopAllTasks`: iterate over a copy of the key
list; stop (and thereby delete) running tasks, delete the others outright.
The `lookup = none` case cannot arise for a registry with distinct keys
(the loop only deletes the key it is visiting); it is embedded as a skip. -/
def stopAllGo (keys : List String) (tasks : TaskRegistry) : TaskRegistry :=
  match keys with
  | [] => tasks
  | k :: rest =>
    match List.lookup k tasks with
    | some t =>
      if t.state = "running" then stopAllGo rest (stopTask tasks k).2
      else stopAllGo rest (tasks.eraseP (fun p => p.1 == k))
    | none => stopAllGo rest tasks

/-- `TaskManager.stopAllTasks`. -/
def stopAllTasks (tasks : TaskRegistry) : TaskRegistry :=
  stopAllGo (taskKeys tasks) tasks

/-- Python `str(pid)`: `str(None) = "None"`. -/
def pidStr : Option Nat → String
  | some p => Nat.repr p
  | none => "None"

/-- Python `sep in s` / `s.split(sep)` for a one-character separator
(the only separators the source uses are `"|"` and `"."`), embedded
structurally on the character list so that it evaluates by reduction. -/
def splitChars (sep : Char) : List Char → List (List Char)
  | [] => [[]]
  | c :: t =>
    if c = sep then [] :: splitChars sep t
    else
      match splitChars sep t with
      | h :: r => (c :: h) :: r
      | [] => [[c]]

def pySplit (sep : Char) (s : String) : List String :=
  (splitChars sep s.data).map List.asString

/-- Python `needle in hay` on strings (substring test). -/
def containsSeq (needle : List Char) : List Char → Bool
  | [] => needle.isEmpty
  | c :: t => needle.isPrefixOf (c :: t) || containsSeq needle t

def pyIn (needle hay : String) : Bool :=
  containsSeq needle.data hay.data

/-- `Task.toList`: `[str(pid), taskName, state, outputFilename]`. -/
def taskRow (name : String) (t : TaskEntry) : List String :=
  [pidStr t.pid, name, t.state, t.outputFilename]

/-- `TaskManager.getTasksList`: rows for the tasks matching the filter.
In the source the first disjunct of the filter reads `pattern in t.name`,
where `t.name` resolves to the `multiprocessing.Process` name of the task
(process naming is an OS concern outside the embedding); it is embedded as
a match against the task's registry name.  The claims settled here do not
depend on which rows the filter keeps, only on the rows' contents. -/
def getTasksList (tasks : TaskRegistry) (pattern : String) : List (List String) :=
  (tasks.filter
      (fun p => pyIn pattern p.1 || pyIn pattern (pidStr p.2.pid) ||
        pyIn pattern p.2.state)).map
    (fun p => taskRow p.1 p.2)

/-! ### Facts about the task registry -/

theorem key_ne_of_mem_eraseP (name : String) :
    ∀ tasks : TaskRegistry, (taskKeys tasks).Nodup →
      (List.lookup name tasks).isSome →
      ∀ p ∈ tasks.eraseP (fun q => q.1 == name), p.1 ≠ name := by
  intro tasks
  induction tasks with
  | nil => intro _ h; simp [List.lookup] at h
  | cons q rest ih =>
    intro hnd hlk p hp
    have hnd' : (q.1 :: taskKeys rest).Nodup := hnd
    have hhd : q.1 ∉ taskKeys rest := (List.nodup_cons.mp hnd').1
    by_cases hq : q.1 = name
    · rw [List.eraseP_cons, show (q.1 == name) = true from beq_iff_eq.mpr hq] at hp
      simp only [cond_true] at hp
      intro hpn
      apply hhd
      rw [hq, ← hpn]
      exact List.mem_map_of_mem Prod.fst hp
    · rw [List.eraseP_cons, show (q.1 == name) = false from beq_eq_false_iff_ne.mpr hq] at hp
      simp only [cond_false, List.mem_cons] at hp
      rcases hp with rfl | hp
      · exact hq
      · refine ih (List.nodup_cons.mp hnd').2 ?_ p hp
        have : (name == q.1) = false :=
          beq_eq_false_iff_ne.mpr (fun h => hq h.symm)
        simpa [List.lookup, this] using hlk

/-- C8: `stopTask(name)` fails and changes nothing unless the task exists in
state `"running"`; on success the task is removed from the registry, so no
row of any subsequent `getTasksList` carries its name. -/
theorem stopTask_spec (tasks : TaskRegistry) (name : String)
    (hnd : (taskKeys tasks).Nodup) :
    (∀ t, List.lookup name tasks = some t → t.state ≠ "running" →
      stopTask tasks name = (false, tasks)) ∧
    (List.lookup name tasks = none → stopTask tasks name = (false, tasks)) ∧
    (∀ t, List.lookup name tasks = some t → t.state = "running" →
      (stopTask tasks name).1 = true ∧
      List.lookup name (stopTask tasks name).2 = none ∧
      ∀ pattern row, row ∈ getTasksList (stopTask tasks name).2 pattern →
        row.get? 1 ≠ some name) := by
  refine ⟨fun t ht hs => by simp [stopTask, ht, hs], fun h => by simp [stopTask, h],
    fun t ht hs => ⟨by simp [stopTask, ht, hs], ?_, fun pattern row hrow => ?_⟩⟩
  · have h2 : (stopTask tasks name).2 = tasks.eraseP (fun p => p.1 == name) := by
      simp [stopTask, ht, hs]
    rw [h2]
    cases hlk : List.lookup name (tasks.eraseP (fun p => p.1 == name)) with
    | none => rfl
    | some x =>
      have hmem : name ∈ (tasks.eraseP (fun p => p.1 == name)).map Prod.fst :=
        (hasKey_iff_mem _ name).mp (by simp [hasKey, hlk])
      obtain ⟨p, hp, hp1⟩ := List.mem_map.mp hmem
      exact absurd hp1 (key_ne_of_mem_eraseP name tasks hnd (by simp [ht]) p hp)
  · simp only [stopTask, ht, hs, if_pos rfl] at hrow
    simp only [getTasksList, List.mem_map, List.mem_filter] at hrow
    obtain ⟨p, ⟨hp, _⟩, rfl⟩ := hrow
    have hne : p.1 ≠ name :=
      key_ne_of_mem_eraseP name tasks hnd (by simp [ht]) p hp
    simpa [taskRow] using hne

theorem stopAllGo_keys_eq_nil :
    ∀ (keys : List String) (tasks : TaskRegistry), taskKeys tasks = keys →
      keys.Nodup → stopAllGo keys tasks = [] := by
  intro keys
  induction keys with
  | nil =>
    intro tasks hk _
    have : tasks = [] := List.map_eq_nil_iff.mp hk
    simp [stopAllGo, this]
  | cons k rest ih =>
    intro tasks hk hnd
    cases tasks with
    | nil => simp [taskKeys] at hk
    | cons p tail =>
      have hcons : p.1 :: taskKeys tail = k :: rest := hk
      obtain ⟨hk1, htail⟩ := List.cons_eq_cons.mp hcons
      obtain ⟨kp, t⟩ := p
      simp only at hk1
      have hlk : List.lookup k ((kp, t) :: tail) = some t := by
        simp [List.lookup, hk1]
      have herase : ((kp, t) :: tail).eraseP (fun p => p.1 == k) = tail := by
        simp [List.eraseP_cons, hk1]
      by_cases hs : t.state = "running"
      · simp only [stopAllGo, hlk, stopTask, if_pos hs, herase]
        exact ih tail htail (List.nodup_cons.mp hnd).2
      · simp only [stopAllGo, hlk, if_neg hs, herase]
        exact ih tail htail (List.nodup_cons.mp hnd).2

/-- C9: after `stopAllTasks()` the registry is empty, so `getTasksList("")`
returns the empty list. -/
theorem stopAllTasks_empties (tasks : TaskRegistry)
    (hnd : (taskKeys tasks).Nodup) :
    stopAllTasks tasks = [] ∧ getTasksList (stopAllTasks tasks) "" = [] := by
  have h : stopAllTasks tasks = [] :=
    stopAllGo_keys_eq_nil (taskKeys tasks) tasks rfl hnd
  exact ⟨h, by simp [h, getTasksList]⟩

/-! ### Decimal rendering of the collision counter

`addTask` builds candidate names `f"{base}.{counter}"`.  To reason about
the collision loop we prove that `Nat.repr` is injective and produces a
nonempty string, by evaluating the decimal digits it emits. -/

/-- Decimal value of a digit string, extending an accumulator. -/
def dval (a : Nat) (ds : List Char) : Nat :=
  ds.foldl (fun x c => 10 * x + (c.toNat - 48)) a

theorem digitChar_toNat : ∀ n < 10, (Nat.digitChar n).toNat = 48 + n := by decide

theorem dval_toDigitsCore :
    ∀ (fuel n : Nat) (ds : List Char), n < 10 ^ fuel →
      dval 0 (Nat.toDigitsCore 10 fuel n ds) = dval n ds := by
  intro fuel
  induction fuel with
  | zero =>
    intro n ds h
    interval_cases n
    simp [Nat.toDigitsCore]
  | succ f ih =>
    intro n ds h
    by_cases h0 : n / 10 = 0
    · have hn : n < 10 := by omega
      have hmod : n % 10 = n := Nat.mod_eq_of_lt hn
      simp only [Nat.toDigitsCore, h0, if_pos rfl]
      simp [dval, hmod, digitChar_toNat n hn]
    · have hdiv : n / 10 < 10 ^ f := by
        rw [Nat.div_lt_iff_lt_mul (by norm_num)]
        calc n < 10 ^ (f + 1) := h
          _ = 10 ^ f * 10 := by ring
      simp only [Nat.toDigitsCore, if_neg h0]
      rw [ih (n / 10) _ hdiv]
      have hmod : n % 10 < 10 := Nat.mod_lt _ (by norm_num)
      simp [dval, digitChar_toNat _ hmod]
      congr 1
      omega

theorem dval_toDigits (n : Nat) : dval 0 (Nat.toDigits 10 n) = n := by
  have h : n < 10 ^ (n + 1) :=
    lt_of_lt_of_le (Nat.lt_pow_self (by norm_num) n)
      (Nat.pow_le_pow_right (by norm_num) (Nat.le_succ n))
  simpa [dval] using dval_toDigitsCore (n + 1) n [] h

theorem natRepr_injective : Function.Injective Nat.repr := by
  intro m n h
  have hd : Nat.toDigits 10 m = Nat.toDigits 10 n := by
    have := congrArg String.data h
    simpa [Nat.repr, List.asString] using this
  calc m = dval 0 (Nat.toDigits 10 m) := (dval_toDigits m).symm
    _ = dval 0 (Nat.toDigits 10 n) := by rw [hd]
    _ = n := dval_toDigits n

theorem toDigitsCore_ne_nil :
    ∀ (fuel n : Nat) (ds : List Char), ds ≠ [] → Nat.toDigitsCore 10 fuel n ds ≠ [] := by
  intro fuel
  induction fuel with
  | zero => intro n ds h; simpa [Nat.toDigitsCore] using h
  | succ f ih =>
    intro n ds h
    by_cases h0 : n / 10 = 0
    · simp [Nat.toDigitsCore, h0]
    · simp only [Nat.toDigitsCore, if_neg h0]
      exact ih _ _ (by simp)

theorem natRepr_ne_nil (n : Nat) : (Nat.repr n).data ≠ [] := by
  show (Nat.toDigits 10 n).asString.data ≠ []
  simp only [List.asString]
  show Nat.toDigits 10 n ≠ []
  unfold Nat.toDigits
  by_cases h0 : n / 10 = 0
  · simp [Nat.toDigitsCore, h0]
  · simp only [Nat.toDigitsCore, if_neg h0]
    exact toDigitsCore_ne_nil _ _ _ (by simp)

/-- The candidate names `base`, `base.1`, `base.2`, … are pairwise distinct. -/
theorem candidate_injective (base : String) :
    Function.Injective (fun k => base ++ "." ++ Nat.repr k) := by
  intro i j h
  apply natRepr_injective
  apply String.ext
  have := congrArg String.data h
  simpa [String.data_append] using this

theorem candidate_ne_base (base : String) (k : Nat) :
    base ++ "." ++ Nat.repr k ≠ base := by
  intro h
  have := congrArg (fun s => s.data.length) h
  simp [String.data_append] at this

/-- `resolveGo` returns the first fresh candidate, provided some candidate
within the fuel range is fresh. -/
theorem resolveGo_min (keys : List String) (base : String) :
    ∀ (f c : Nat), (∃ k, c ≤ k ∧ k < c + f ∧ (base ++ "." ++ Nat.repr k) ∉ keys) →
      ∃ k, c ≤ k ∧ resolveGo keys base f c = base ++ "." ++ Nat.repr k ∧
        (base ++ "." ++ Nat.repr k) ∉ keys ∧
        ∀ j, c ≤ j → j < k → (base ++ "." ++ Nat.repr j) ∈ keys := by
  intro f
  induction f with
  | zero =>
    intro c ⟨k, hk1, hk2, _⟩
    omega
  | succ f ih =>
    intro c ⟨k, hk1, hk2, hk3⟩
    by_cases hc : (base ++ "." ++ Nat.repr c) ∈ keys
    · have hkc : k ≠ c := fun h => hk3 (h ▸ hc)
      obtain ⟨k', h1, h2, h3, h4⟩ :=
        ih (c + 1) ⟨k, by omega, by omega, hk3⟩
      refine ⟨k', by omega, ?_, h3, fun j hj1 hj2 => ?_⟩
      · simpa [resolveGo, hc] using h2
      · rcases Nat.eq_or_lt_of_le hj1 with rfl | hlt
        · exact hc
        · exact h4 j hlt hj2
    · exact ⟨c, le_refl c, by simp [resolveGo, hc], hc, fun j hj1 hj2 => by omega⟩

/-- Pigeonhole: among the candidates `base.1`, …, `base.(keys.length + 1)`
at least one is not a key. -/
theorem exists_fresh_candidate (keys : List String) (base : String) :
    ∃ k, 1 ≤ k ∧ k < 1 + (keys.length + 1) ∧ (base ++ "." ++ Nat.repr k) ∉ keys := by
  by_contra hall
  push_neg at hall
  set cands : List String :=
    (List.range (keys.length + 1)).map (fun i => base ++ "." ++ Nat.repr (i + 1)) with hc
  have hnd : cands.Nodup := by
    refine List.Nodup.map ?_ (List.nodup_range _)
    intro i j hij
    have := candidate_injective base hij
    omega
  have hsub : cands ⊆ keys := by
    intro s hs
    simp only [hc, List.mem_map, List.mem_range] at hs
    obtain ⟨i, hi, rfl⟩ := hs
    exact hall (i + 1) (by omega) (by omega)
  have h1 : cands.toFinset.card = keys.length + 1 := by
    rw [List.toFinset_card_of_nodup hnd]
    simp [hc]
  have h2 : cands.toFinset ⊆ keys.toFinset := by
    intro s hs
    exact List.mem_toFinset.mpr (hsub (List.mem_toFinset.mp hs))
  have h3 := Finset.card_le_card h2
  have h4 := List.toFinset_card_le keys
  omega

/-- `resolveTaskName` behaves like the source's collision loop: keep the
base name if it is free, else take the first free candidate `base.k`. -/
theorem resolveTaskName_spec (keys : List String) (base : String) :
    (resolveTaskName keys base ∉ keys) ∧
    (base ∉ keys → resolveTaskName keys base = base) ∧
    (base ∈ keys → ∃ k, 1 ≤ k ∧
      resolveTaskName keys base = base ++ "." ++ Nat.repr k ∧
      ∀ j, 1 ≤ j → j < k → (base ++ "." ++ Nat.repr j) ∈ keys) := by
  by_cases hb : base ∈ keys
  · obtain ⟨k, h1, h2, h3, h4⟩ :=
      resolveGo_min keys base (keys.length + 1) 1 (exists_fresh_candidate keys base)
    have heq : resolveTaskName keys base = base ++ "." ++ Nat.repr k := by
      rw [resolveTaskName, if_pos hb, h2]
    exact ⟨by rw [heq]; exact h3, fun h => absurd hb h,
      fun _ => ⟨k, h1, heq, fun j hj1 hj2 => h4 j hj1 hj2⟩⟩
  · have heq : resolveTaskName keys base = base := by
      rw [resolveTaskName, if_neg hb]
    exact ⟨by rw [heq]; exact hb, fun _ => heq, fun h => absurd h hb⟩

theorem lookup_append_of_not_mem {α : Type} (l₁ l₂ : List (String × α)) (k : String)
    (h : k ∉ l₁.map Prod.fst) : List.lookup k (l₁ ++ l₂) = List.lookup k l₂ := by
  induction l₁ with
  | nil => simp
  | cons p t ih =>
    have hk : (k == p.1) = false :=
      beq_eq_false_iff_ne.mpr (fun he => h (by simp [he]))
    simp only [List.cons_append, List.lookup, hk]
    exact ih (fun hm => h (by simp only [List.map_cons, List.mem_cons]; right; exact hm))

/-- C7: `addTask` with a non-empty requested name returns the bare name when
it is free, otherwise the first free `.k`-suffixed name, and stores a fresh
task in state `"stopped"` under the returned name without touching the rest
of the registry; in particular three calls with name `"probe"` on an empty
registry return `"probe"`, `"probe.1"`, `"probe.2"`, all stored stopped. -/
theorem addTask_spec (tasks : TaskRegistry) (funcName name : String)
    (h : name ≠ "") :
    ((addTask tasks funcName name).1 ∉ taskKeys tasks) ∧
    (name ∉ taskKeys tasks → (addTask tasks funcName name).1 = name) ∧
    (name ∈ taskKeys tasks → ∃ k, 1 ≤ k ∧
      (addTask tasks funcName name).1 = name ++ "." ++ Nat.repr k ∧
      ∀ j, 1 ≤ j → j < k → (name ++ "." ++ Nat.repr j) ∈ taskKeys tasks) ∧
    ((addTask tasks funcName name).2 =
      tasks ++ [((addTask tasks funcName name).1, newTask funcName)]) ∧
    (List.lookup (addTask tasks funcName name).1 (addTask tasks funcName name).2 =
      some (newTask funcName)) ∧
    (newTask funcName).state = "stopped" ∧
    ((addTask [] "f" "probe").1 = "probe" ∧
      (addTask (addTask [] "f" "probe").2 "f" "probe").1 = "probe.1" ∧
      (addTask (addTask (addTask [] "f" "probe").2 "f" "probe").2 "f" "probe").1 =
        "probe.2") := by
  obtain ⟨hfresh, hbare, hcoll⟩ := resolveTaskName_spec (taskKeys tasks) name
  have hbase : (if name ≠ "" then name else funcName) = name := if_pos h
  have h1 : (addTask tasks funcName name).1 = resolveTaskName (taskKeys tasks) name := by
    simp [addTask, hbase]
  have h2 : (addTask tasks funcName name).2 =
      tasks ++ [(resolveTaskName (taskKeys tasks) name, newTask funcName)] := by
    simp [addTask, hbase]
  refine ⟨h1 ▸ hfresh, fun hn => h1 ▸ hbare hn, fun hn => h1 ▸ hcoll hn, ?_, ?_, rfl, ?_⟩
  · rw [h2, h1]
  · rw [h1, h2, lookup_append_of_not_mem _ _ _ hfresh]
    simp [List.lookup]
  · refine ⟨by decide, by decide, by decide⟩

/-- Witness for `addTask_spec` at a concrete registry and name. -/
theorem addTask_spec_witness :
    ("probe" ≠ "" ∧ "probe" ∈ taskKeys [("probe", newTask "f")]) ∧
    ((addTask [("probe", newTask "f")] "f" "probe").1 ∉
      taskKeys [("probe", newTask "f")] ∧
    (List.lookup (addTask [("probe", newTask "f")] "f" "probe").1
      (addTask [("probe", newTask "f")] "f" "probe").2 = some (newTask "f"))) :=
  ⟨⟨by decide, by decide⟩,
    (addTask_spec [("probe", newTask "f")] "f" "probe" (by decide)).1,
    (addTask_spec [("probe", newTask "f")] "f" "probe" (by decide)).2.2.2.2.1⟩

/-- A concrete running task used by the task-manager witnesses. -/
def runningTaskA : TaskEntry :=
  { funcName := "f", state := "running", pid := some 7, outputFilename := "o" }

/-- A concrete ended task used by the task-manager witnesses. -/
def endedTaskC : TaskEntry :=
  { funcName := "h", state := "ended", pid := some 9, outputFilename := "p" }

/-- A concrete registry with a running, a stopped and an ended task. -/
def sampleRegistry : TaskRegistry :=
  [("a", runningTaskA), ("b", newTask "g"), ("c", endedTaskC)]

/-- Witness for `stopTask_spec` at a concrete registry. -/
theorem stopTask_spec_witness :
    ((taskKeys sampleRegistry).Nodup ∧
      List.lookup "a" sampleRegistry = some runningTaskA ∧
      runningTaskA.state = "running") ∧
    ((stopTask sampleRegistry "a").1 = true ∧
      List.lookup "a" (stopTask sampleRegistry "a").2 = none ∧
      ∀ pattern row, row ∈ getTasksList (stopTask sampleRegistry "a").2 pattern →
        row.get? 1 ≠ some "a") :=
  ⟨⟨by decide, by decide, by decide⟩,
    (stopTask_spec sampleRegistry "a" (by decide)).2.2 runningTaskA
      (by decide) (by decide)⟩

/-- Witness for `stopAllTasks_empties` at a concrete registry. -/
theorem stopAllTasks_empties_witness :
    (taskKeys sampleRegistry).Nodup ∧
    stopAllTasks sampleRegistry = [] ∧
    getTasksList (stopAllTasks sampleRegistry) "" = [] :=
  ⟨by decide, (stopAllTasks_empties sampleRegistry (by decide)).1,
    (stopAllTasks_empties sampleRegistry (by decide)).2⟩

/-! ## Modules, pipeline slots and the parameter router (`mirage/core/app.py`)

A module instance (`core.module.Module`) is embedded by its argument
table, its `dynamicArgs` flag, whether it is a `WirelessModule` (plus its
`sdrConfig` table), and its `run` behaviour: `Module.execute` calls
`prerun`, `run`, `postrun` and returns `run`'s result
`{success, output}`, embedded as a function from the current argument
table to `Bool × output`. -/

structure Module where
  args : List (String × String)
  dynamicArgs : Bool
  isWireless : Bool
  sdrConfig : List (String × String)
  run : List (String × String) → Bool × List (String × String)

/-- Modelled from the spec: the reserved device-configuration keys
(`wireless.SDRDevice.SDR_PARAMETERS`) live in `mirage/libs/wireless.py`,
which is not part of the provided sources; the spec only says that such
reserved keys exist (§4.4).  The key set is left empty here and every
theorem that could depend on it takes the module's wireless flag or the
parameter name as an explicit hypothesis instead. -/
def SDR_PARAMETERS : List String := []

/-- `{ m with args := a }`, named so that multi-line statements stay
readable. -/
def withArgs (m : Module) (a : List (String × String)) : Module :=
  { m with args := a }

/-- One entry of a shortcut's parameter mapping (`Config.generateShortcuts`):
the list of target parameter names and the optional (default) value. -/
structure MappingEntry where
  parameters : List String
  value : Option String
deriving DecidableEq, Repr

/-- A `{"name": ..., "module": ...}` dict as built by `App.load`.  The
module is `None` when `loader.load` failed inside a shortcut expansion
(the shortcut branch of `App.load` does not check the result). -/
structure UnitSlotData where
  name : String
  module : Option Module

/-- A pipeline slot of `App.modules`: either a unit dict or a shortcut dict
`{"name": ..., "shortcut": [unit dicts], "mapping": ...}`.  As in the
source (`App.load`), the members of a shortcut slot are always unit dicts
(shortcut chains list plain module names; alias-of-alias chains do not
occur), so the member list is typed accordingly. -/
inductive Slot where
  | unitS (data : UnitSlotData)
  | shortcutS (name : String) (members : List UnitSlotData)
      (mapping : List (String × MappingEntry))

def Slot.name : Slot → String
  | .unitS d => d.name
  | .shortcutS n _ _ => n

/-- The `SetParameterException` hierarchy of `App`, plus the `ValueError`
Python raises in `name.split(".")` when the dotted name has more than one
dot. -/
inductive SetErr where
  | noModuleLoaded
  | incorrectParameter
  | multipleModulesLoaded
  | valueError
deriving DecidableEq, Repr

/-- Python truthiness of the three values `App._set` can return. -/
inductive PyVal where
  | pyTrue
  | pyFalse
  | pyNone
deriving DecidableEq, Repr

def PyVal.truthy : PyVal → Bool
  | .pyTrue => true
  | _ => false

/-- The single-slot unit branch of `App._set`: set the argument if the
module accepts undeclared arguments or declares it; else route reserved
device keys of wireless modules to `sdrConfig`; else raise
`IncorrectParameter`.  The module state is returned alongside the result
because Python mutations survive a raised exception. -/
def setUnit (name value : String) (m : Module) : Except SetErr PyVal × Module :=
  if m.dynamicArgs || hasKey m.args name then
    (.ok .pyTrue, { m with args := setKey m.args name value })
  else if SDR_PARAMETERS.contains name && m.isWireless then
    (.ok .pyTrue, { m with sdrConfig := setKey m.sdrConfig name value })
  else (.error .incorrectParameter, m)

/-- `App._set` on a singleton `[member]` list holding a unit dict: the
unit branch when the module is present, `return False` when it is `None`
(no branch of `_set` matches such a dict). -/
def setMemberSingle (name value : String) (u : UnitSlotData) :
    Except SetErr PyVal × UnitSlotData :=
  match u.module with
  | some m =>
    match setUnit name value m with
    | (r, m') => (r, { u with module := some m' })
  | none => (.ok .pyFalse, u)

/-- The multi-slot branch of `App._set` restricted to unit dicts (the
shape of a shortcut's member list): find the first member whose module is
present and whose name matches, recurse on it alone; fall off the loop
(returning Python `None`) when no member matches. -/
def setMembersDotted (mn an value : String) :
    List UnitSlotData → Except SetErr PyVal × List UnitSlotData
  | [] => (.ok .pyNone, [])
  | u :: rest =>
    if u.module.isSome && mn == u.name then
      match setMemberSingle an value u with
      | (r, u') => (r, u' :: rest)
    else
      match setMembersDotted mn an value rest with
      | (r, rest') => (r, u :: rest')

/-- `App._set` applied to a shortcut's member list (`module["shortcut"]`):
empty list raises `NoModuleLoaded`; a singleton takes the single-slot unit
branch; otherwise the name must be dotted (`ValueError` if it has more
than one dot, `MultipleModulesLoaded` if it has none). -/
def setMembers (name value : String) (members : List UnitSlotData) :
    Except SetErr PyVal × List UnitSlotData :=
  match members with
  | [] => (.error .noModuleLoaded, [])
  | [u] =>
    match setMemberSingle name value u with
    | (r, u') => (r, [u'])
  | _ =>
    if name.data.contains '.' then
      match pySplit '.' name with
      | [mn, an] => setMembersDotted mn an value members
      | _ => (.error .valueError, members)
    else (.error .multipleModulesLoaded, members)

/-- The `for parameters_name in shortcut_mapping["parameters"]` loop of
`App._set`: `success = success and self._set(parameters_name, value,
module["shortcut"])`.  Once `success` is falsy the `and` short-circuits,
so the remaining targets are not set; a raised exception aborts the loop
but keeps the mutations made so far. -/
def setShortcutLoop (value : String) (params : List String)
    (members : List UnitSlotData) (succ : PyVal) :
    Except SetErr PyVal × List UnitSlotData :=
  match params with
  | [] => (.ok succ, members)
  | p :: rest =>
    if succ.truthy then
      match setMembers p value members with
      | (.error e, members') => (.error e, members')
      | (.ok r, members') => setShortcutLoop value rest members' r
    else (.ok succ, members)

/-- The shortcut branch of `App._set` (shared verbatim by the single-slot
and the dotted multi-slot paths): unknown alias parameter raises
`IncorrectParameter`; otherwise run the loop over the mapping's targets
and commit `mapping[name]["value"] = value` only if `success` is truthy. -/
def setShortcutParam (name value : String) (members : List UnitSlotData)
    (mapping : List (String × MappingEntry)) :
    Except SetErr PyVal × List UnitSlotData × List (String × MappingEntry) :=
  match List.lookup name mapping with
  | some entry =>
    match setShortcutLoop value entry.parameters members .pyTrue with
    | (.error e, members') => (.error e, members', mapping)
    | (.ok succ, members') =>
      (.ok succ, members',
        if succ.truthy then setKey mapping name { entry with value := some value }
        else mapping)
  | none => (.error .incorrectParameter, members, mapping)

/-- The single-slot case of `App._set`. -/
def setSingleSlot (name value : String) : Slot → Except SetErr PyVal × Slot
  | .unitS u =>
    match setMemberSingle name value u with
    | (r, u') => (r, .unitS u')
  | .shortcutS n members mapping =>
    match setShortcutParam name value members mapping with
    | (r, members', mapping') => (r, .shortcutS n members' mapping')

/-- The `for module in modules_list` loop of the dotted multi-slot case of
`App._set`: the first slot whose display name matches (unit dicts only
count when their module is present) is updated; if no slot matches, the
loop falls through and `_set` returns Python `None`. -/
def setSlotsDotted (mn an value : String) : List Slot → Except SetErr PyVal × List Slot
  | [] => (.ok .pyNone, [])
  | .unitS u :: rest =>
    if u.module.isSome && mn == u.name then
      match setMemberSingle an value u with
      | (r, u') => (r, .unitS u' :: rest)
    else
      match setSlotsDotted mn an value rest with
      | (r, rest') => (r, .unitS u :: rest')
  | .shortcutS n members mapping :: rest =>
    if mn == n then
      match setShortcutParam an value members mapping with
      | (r, members', mapping') => (r, .shortcutS n members' mapping' :: rest)
    else
      match setSlotsDotted mn an value rest with
      | (r, rest') => (r, .shortcutS n members mapping :: rest')

/-- `App._set(name, value, modules_list)`. -/
def appSetSlots (name value : String) (slots : List Slot) :
    Except SetErr PyVal × List Slot :=
  match slots with
  | [] => (.error .noModuleLoaded, [])
  | [s] =>
    match setSingleSlot name value s with
    | (r, s') => (r, [s'])
  | _ =>
    if name.data.contains '.' then
      match pySplit '.' name with
      | [mn, an] => setSlotsDotted mn an value slots
      | _ => (.error .valueError, slots)
    else (.error .multipleModulesLoaded, slots)

/-- The failure messages `App.set` can emit via `io.fail` / `io.error`. -/
inductive SetMsg where
  | noModuleLoaded
  | multipleModules
  | incorrectParameter
  | genericError
deriving DecidableEq, Repr

/-- `App.set(name, value)`: call `_set` on the loaded pipeline and map each
`SetParameterException` (or any other exception) to its failure message; a
non-exceptional `_set` — whatever it returns — produces no output. -/
def appSet (name value : String) (slots : List Slot) : Option SetMsg × List Slot :=
  match appSetSlots name value slots with
  | (.ok _, slots') => (none, slots')
  | (.error .noModuleLoaded, slots') => (some .noModuleLoaded, slots')
  | (.error .multipleModulesLoaded, slots') => (some .multipleModules, slots')
  | (.error .incorrectParameter, slots') => (some .incorrectParameter, slots')
  | (.error .valueError, slots') => (some .genericError, slots')

/-! ## Loading pipelines (`App.load`, `core/loader.py`, `core/config.py`) -/

/-- A shortcut as stored by `Config.generateShortcuts`: the pipe-delimited
module chain, the description, and the parameter mapping. -/
structure Shortcut where
  modules : String
  description : String
  mapping : List (String × MappingEntry)

/-- The collaborators `App.load` consults: the loader's module registry
(`Loader.modulesList`; instantiation returns a fresh copy of the stored
instance template, which value semantics gives for free), the shortcut
table (`Config.getShortcuts`) and the per-module configuration data
(`Config.datas`, consulted via `dataExists` / `getData`). -/
structure Env where
  registry : List (String × Module)
  shortcuts : List (String × Shortcut)
  datas : List (String × List (String × String))

/-- `Loader.load`: an instance of the module, or `None` if unknown. -/
def loaderLoad (env : Env) (m : String) : Option Module :=
  List.lookup m env.registry

/-- `Config.dataExists(module_name, arg)`. -/
def dataExists (env : Env) (mname arg : String) : Bool :=
  match List.lookup mname env.datas with
  | some d => hasKey d arg
  | none => false

/-- `Config.getData(module_name, arg)` (only called when `dataExists`). -/
def getData (env : Env) (mname arg : String) : String :=
  (((List.lookup mname env.datas).bind (fun d => List.lookup arg d)).getD "")

/-- The `for argument in output.args: if dataExists ...` loop of
`App.load`: overwrite each declared argument that has configured data. -/
def applyConfigDatas (env : Env) (mname : String) (m : Module) : Module :=
  { m with
    args := m.args.map (fun kv =>
      if dataExists env mname kv.1 then (kv.1, getData env mname kv.1) else kv) }

/-- The `for argument in self.loaded_shortcuts[m]["mapping"]` loop in the
shortcut branch of `App.load`: every mapping entry with a non-null value
is applied to the member just loaded via `self._set(argument,
mapping["value"], [shortcut_modules[-1]])`; the returned truth value is
discarded, but a raised `IncorrectParameter` propagates out of `load`. -/
def preseedMember (mapping : List (String × MappingEntry)) (u : UnitSlotData) :
    Except SetErr Unit × UnitSlotData :=
  match mapping with
  | [] => (.ok (), u)
  | (k, e) :: rest =>
    match e.value with
    | some v =>
      match setMemberSingle k v u with
      | (.error err, u') => (.error err, u')
      | (.ok _, u') => preseedMember rest u'
    | none => preseedMember rest u

/-- The `for n in shortcut_modules_list` loop of `App.load`: load each
member (unchecked: a failed load stores `None`), give it its suffixed
display name, and pre-seed it from the mapping's non-null values. -/
def loadShortcutMembers (env : Env) (mapping : List (String × MappingEntry))
    (total : Nat) : List String → Nat → Except SetErr Unit × List UnitSlotData
  | [], _ => (.ok (), [])
  | n :: rest, counter =>
    let u0 : UnitSlotData :=
      { name := if total > 1 then n ++ Nat.repr counter else n,
        module := loaderLoad env n }
    match preseedMember mapping u0 with
    | (.error e, u') => (.error e, [u'])
    | (.ok _, u') =>
      match loadShortcutMembers env mapping total rest (counter + 1) with
      | (.error e, us) => (.error e, u' :: us)
      | (.ok _, us) => (.ok (), u' :: us)

/-- The `for m in modules` loop of `App.load` building `tmp_modules`:
`.ok (some slots)` when every component resolved, `.ok none` when a
component resolved neither as a module nor as a shortcut (`no_error =
False` and `break`), `.error` when pre-seeding raised. -/
def loadComponents (env : Env) (total : Nat) :
    List String → Nat → Except SetErr (Option (List Slot))
  | [], _ => .ok (some [])
  | m :: rest, counter =>
    match loaderLoad env m with
    | some mod =>
      let mod' := applyConfigDatas env m mod
      let slot : Slot :=
        .unitS { name := if total > 1 then m ++ Nat.repr counter else m,
                 module := some mod' }
      match loadComponents env total rest (counter + 1) with
      | .ok (some slots) => .ok (some (slot :: slots))
      | .ok none => .ok none
      | .error e => .error e
    | none =>
      match List.lookup m env.shortcuts with
      | some sc =>
        let memberNames := pySplit '|' sc.modules
        match loadShortcutMembers env sc.mapping memberNames.length memberNames 1 with
        | (.error e, _) => .error e
        | (.ok _, members) =>
          let slot : Slot :=
            .shortcutS (if total > 1 then m ++ Nat.repr counter else m)
              members sc.mapping
          match loadComponents env total rest (counter + 1) with
          | .ok (some slots) => .ok (some (slot :: slots))
          | .ok none => .ok none
          | .error e => .error e
      | none => .ok none

/-- `App.load(module_name)`: split the expression on `|` (Python's
`split` and the source's special case for pipe-free names coincide,
since `s.split(sep) == [s]` when `sep not in s`), resolve all
components, and replace `self.modules` only when no component failed; on
failure — or on an exception raised while pre-seeding — the previously
installed pipeline is kept. -/
def appLoadComps (env : Env) (comps : List String) (prev : List Slot) :
    Except SetErr Unit × List Slot :=
  match loadComponents env comps.length comps 1 with
  | .error e => (.error e, prev)
  | .ok none => (.ok (), prev)
  | .ok (some slots) => (.ok (), slots)

def appLoad (env : Env) (nameExpr : String) (prev : List Slot) :
    Except SetErr Unit × List Slot :=
  appLoadComps env (pySplit '|' nameExpr) prev

/-! ## Running a pipeline (`App.run`) -/

/-- One execution of a unit during `App.run`: the display name of the
slot/member, the argument table the unit's `execute` ran with, and the
reported success flag and output mapping. -/
structure Event where
  name : String
  argsUsed : List (String × String)
  success : Bool
  output : List (String × String)
deriving DecidableEq, Repr

/-- The `for arg in args:` loop of `App.run`: overwrite every declared
argument (or any argument, for `dynamicArgs` modules) with the carried
value. -/
def applyCarried (carried : List (String × String)) (m : Module) : Module :=
  carried.foldl
    (fun acc kv =>
      if hasKey acc.args kv.1 || acc.dynamicArgs then
        { acc with args := setKey acc.args kv.1 kv.2 }
      else acc)
    m

/-- Python `args.update(output)`. -/
def updateAll (c out : List (String × String)) : List (String × String) :=
  out.foldl (fun acc kv => setKey acc kv.1 kv.2) c

/-- The inner `for shortcut_module in module["shortcut"]` loop of
`App.run`: execute the members in order; a failing member `break`s this
inner loop only (its output is not merged).  A member whose module is
`None` makes Python crash on `shortcut_module["module"].args`
(`AttributeError`), embedded as the `.error` case. -/
def runMembers (members : List UnitSlotData) (carried : List (String × String)) :
    Except Unit (List Event × List (String × String)) :=
  match members with
  | [] => .ok ([], carried)
  | u :: rest =>
    match u.module with
    | none => .error ()
    | some m =>
      let m' := applyCarried carried m
      let r := m'.run m'.args
      let ev : Event := { name := u.name, argsUsed := m'.args,
                          success := r.1, output := r.2 }
      if r.1 then
        match runMembers rest (updateAll carried r.2) with
        | .error e => .error e
        | .ok (evs, c') => .ok (ev :: evs, c')
      else .ok ([ev], carried)

/-- The outer loop of `App.run`.  A failing unit slot `break`s the outer
loop; a failure inside a shortcut's members only ends `runMembers`, after
which the outer loop continues with the next slot.  A unit slot whose
module is `None` matches no branch of the loop body and is skipped. -/
def runSlots (slots : List Slot) (carried : List (String × String)) :
    Except Unit (List Event × List (String × String)) :=
  match slots with
  | [] => .ok ([], carried)
  | .unitS u :: rest =>
    match u.module with
    | none => runSlots rest carried
    | some m =>
      let m' := applyCarried carried m
      let r := m'.run m'.args
      let ev : Event := { name := u.name, argsUsed := m'.args,
                          success := r.1, output := r.2 }
      if r.1 then
        match runSlots rest (updateAll carried r.2) with
        | .error e => .error e
        | .ok (evs, c') => .ok (ev :: evs, c')
      else .ok ([ev], carried)
  | .shortcutS _ members _ :: rest =>
    match runMembers members carried with
    | .error e => .error e
    | .ok (evs, c') =>
      match runSlots rest c' with
      | .error e => .error e
      | .ok (evs', c'') => .ok (evs ++ evs', c'')

/-- `App.run()`: execute the loaded pipeline starting from an empty
carried-outputs table. -/
def appRun (slots : List Slot) : Except Unit (List Event × List (String × String)) :=
  runSlots slots []

/-! ## Observation helpers

Small projections used to state results about values whose types contain
functions (modules carry their `run` behaviour, so `Slot` has no decidable
equality); the projections expose the decidable parts. -/

/-- The exception (if any) of a `_set`-style result. -/
def errOf {α : Type} : Except SetErr α → Option SetErr
  | .error e => some e
  | .ok _ => none

/-- The returned value (if no exception) of `App._set`. -/
def valOf : Except SetErr PyVal → Option PyVal
  | .ok v => some v
  | .error _ => none

/-- The argument table of the first member of a leading shortcut slot. -/
def firstShortcutMemberArgs : List Slot → List (String × String)
  | .shortcutS _ (u :: _) _ :: _ =>
    (u.module.map Module.args).getD []
  | _ => []

/-- The display names of the executed stages of a pipeline run. -/
def traceNames : Except Unit (List Event × List (String × String)) → List String
  | .ok (evs, _) => evs.map Event.name
  | .error _ => []

/-- The success flags of the executed stages of a pipeline run. -/
def traceSuccesses : Except Unit (List Event × List (String × String)) → List Bool
  | .ok (evs, _) => evs.map Event.success
  | .error _ => []

/-! ## C10: a dotted name matching no slot is silently ignored -/

theorem setSlotsDotted_no_match (mn an value : String) :
    ∀ slots : List Slot, (∀ s ∈ slots, Slot.name s ≠ mn) →
      setSlotsDotted mn an value slots = (.ok .pyNone, slots) := by
  intro slots
  induction slots with
  | nil => intro _; rfl
  | cons s rest ih =>
    intro h
    have hrest := ih (fun s' hs' => h s' (List.mem_cons_of_mem _ hs'))
    have hs : Slot.name s ≠ mn := h s (List.mem_cons_self _ _)
    cases s with
    | unitS u =>
      have hne : (mn == u.name) = false :=
        beq_eq_false_iff_ne.mpr (fun he => hs (by simp [Slot.name, he]))
      simp [setSlotsDotted, hne, hrest]
    | shortcutS n members mapping =>
      have hne : (mn == n) = false :=
        beq_eq_false_iff_ne.mpr (fun he => hs (by simp [Slot.name, he]))
      simp [setSlotsDotted, hne, hrest]

/-- C10: with at least two slots loaded, calling `set` with a dotted name
`P.N` whose prefix `P` matches no slot's display name mutates nothing and
reports nothing: `_set` falls through its slot loop and returns Python
`None`, which `App.set` treats as a normal completion. -/
theorem set_dotted_unmatched_silent (name value P N : String) (s1 s2 : Slot)
    (rest : List Slot)
    (hdot : name.data.contains '.' = true)
    (hsplit : pySplit '.' name = [P, N])
    (hmatch : ∀ s ∈ s1 :: s2 :: rest, Slot.name s ≠ P) :
    appSetSlots name value (s1 :: s2 :: rest) = (.ok .pyNone, s1 :: s2 :: rest) ∧
    appSet name value (s1 :: s2 :: rest) = (none, s1 :: s2 :: rest) := by
  have h1 : appSetSlots name value (s1 :: s2 :: rest) =
      (.ok .pyNone, s1 :: s2 :: rest) := by
    simp only [appSetSlots, hdot, if_pos rfl, hsplit]
    exact setSlotsDotted_no_match P N value _ hmatch
  exact ⟨h1, by simp [appSet, h1]⟩

/-- A module used by several witnesses: one declared argument `A`,
no undeclared arguments accepted, not wireless, always succeeds. -/
def mA0 : Module :=
  { args := [("A", "0")], dynamicArgs := false, isWireless := false,
    sdrConfig := [], run := fun _ => (true, []) }

/-- Witness for `set_dotted_unmatched_silent`. -/
theorem set_dotted_unmatched_silent_witness :
    (("zz.A").data.contains '.' = true ∧ pySplit '.' "zz.A" = ["zz", "A"] ∧
      ∀ s ∈ [Slot.unitS { name := "a", module := some mA0 },
        Slot.unitS { name := "b", module := some mA0 }], Slot.name s ≠ "zz") ∧
    appSet "zz.A" "v" [Slot.unitS { name := "a", module := some mA0 },
        Slot.unitS { name := "b", module := some mA0 }] =
      (none, [Slot.unitS { name := "a", module := some mA0 },
        Slot.unitS { name := "b", module := some mA0 }]) :=
  ⟨⟨by decide, by decide, by
      intro s hs
      simp only [List.mem_cons, List.not_mem_nil, or_false] at hs
      rcases hs with rfl | rfl
      · decide
      · decide⟩,
    (set_dotted_unmatched_silent "zz.A" "v" "zz" "A" _ _ [] (by decide) (by decide)
      (by
        intro s hs
        simp only [List.mem_cons, List.not_mem_nil, or_false] at hs
        rcases hs with rfl | rfl
        · decide
        · decide)).2⟩

/-! ## C2: `load` installs pipelines atomically -/

/-- A component is unresolvable when it is neither a registered module nor
a known shortcut. -/
def unresolvable (env : Env) (c : String) : Prop :=
  loaderLoad env c = none ∧ List.lookup c env.shortcuts = none

theorem loadComponents_not_some (env : Env) (total : Nat) :
    ∀ (comps : List String) (counter : Nat),
      (∃ c ∈ comps, unresolvable env c) →
      ∀ slots, loadComponents env total comps counter ≠ .ok (some slots) := by
  intro comps
  induction comps with
  | nil => intro counter ⟨c, hc, _⟩ _; cases hc
  | cons m rest ih =>
    intro counter hex slots
    by_cases hm : unresolvable env m
    · obtain ⟨h1, h2⟩ := hm
      simp [loadComponents, h1, h2]
    · obtain ⟨c, hc, hcu⟩ := hex
      have hcrest : c ∈ rest := by
        rcases List.mem_cons.mp hc with rfl | h
        · exact absurd hcu hm
        · exact h
      have hrest := ih (counter + 1) ⟨c, hcrest, hcu⟩
      cases hload : loaderLoad env m with
      | some mod =>
        simp only [loadComponents, hload]
        cases hrec : loadComponents env total rest (counter + 1) with
        | error e => simp
        | ok o =>
          cases o with
          | none => simp
          | some s => exact absurd hrec (hrest s)
      | none =>
        cases hsc : List.lookup m env.shortcuts with
        | none => simp [loadComponents, hload, hsc]
        | some sc =>
          simp only [loadComponents, hload, hsc]
          cases hmem : loadShortcutMembers env sc.mapping
              (pySplit '|' sc.modules).length (pySplit '|' sc.modules) 1 with
          | mk r members =>
            cases r with
            | error e => simp
            | ok u =>
              simp only
              cases hrec : loadComponents env total rest (counter + 1) with
              | error e => simp
              | ok o =>
                cases o with
                | none => simp
                | some s => exact absurd hrec (hrest s)

/-- C2: if any pipe-separated component of a `load` expression resolves to
neither a module nor a shortcut, the previously installed pipeline is
returned unchanged (the new one is never installed). -/
theorem load_atomic (env : Env) (expr : String) (prev : List Slot)
    (h : ∃ c ∈ pySplit '|' expr, unresolvable env c) :
    (appLoad env expr prev).2 = prev := by
  have hns := loadComponents_not_some env (pySplit '|' expr).length
    (pySplit '|' expr) 1 h
  simp only [appLoad, appLoadComps]
  cases hlc : loadComponents env (pySplit '|' expr).length (pySplit '|' expr) 1 with
  | error e => simp
  | ok o =>
    cases o with
    | none => simp
    | some s => exact absurd hlc (hns s)

/-- Witness for `load_atomic`: registry knows `x`, loading `x|y` keeps the
previous pipeline. -/
theorem load_atomic_witness :
    (∃ c ∈ pySplit '|' "x|y",
      unresolvable { registry := [("x", mA0)], shortcuts := [], datas := [] } c) ∧
    (appLoad { registry := [("x", mA0)], shortcuts := [], datas := [] } "x|y"
      [Slot.unitS { name := "old", module := none }]).2 =
      [Slot.unitS { name := "old", module := none }] :=
  ⟨⟨"y", by decide, rfl, rfl⟩,
    load_atomic _ "x|y" _ ⟨"y", by decide, rfl, rfl⟩⟩

/-! ## C6: disambiguating ordinal suffixes -/

/-- The display names `App.load` assigns: the bare component name, or the
name suffixed with its 1-based ordinal when the outer component count
exceeds one. -/
def displayNames (total : Nat) : List String → Nat → List String
  | [], _ => []
  | c :: rest, k =>
    (if total > 1 then c ++ Nat.repr k else c) :: displayNames total rest (k + 1)

theorem loadComponents_units (env : Env) (total : Nat) :
    ∀ (comps : List String) (counter : Nat),
      (∀ c ∈ comps, (loaderLoad env c).isSome) →
      ∃ slots, loadComponents env total comps counter = .ok (some slots) ∧
        slots.map Slot.name = displayNames total comps counter := by
  intro comps
  induction comps with
  | nil => intro counter _; exact ⟨[], rfl, rfl⟩
  | cons c rest ih =>
    intro counter hall
    obtain ⟨mc, hmc⟩ := Option.isSome_iff_exists.mp (hall c (List.mem_cons_self _ _))
    obtain ⟨slots, h1, h2⟩ :=
      ih (counter + 1) (fun c' hc' => hall c' (List.mem_cons_of_mem _ hc'))
    refine ⟨Slot.unitS ⟨(if total > 1 then c ++ Nat.repr counter else c),
      some (applyConfigDatas env c mc)⟩ :: slots, ?_, ?_⟩
    · simp only [loadComponents, hmc, h1]
    · simp only [List.map_cons, h2, Slot.name, displayNames]

/-- C6: `load "x|x"` yields display names `x1`, `x2` (1-based ordinals,
because the outer component count exceeds one), while `load "x"` keeps the
bare name `x` — for any registry that knows a module `x`. -/
theorem load_suffixes (env : Env) (m : Module) (prev prev' : List Slot)
    (h : List.lookup "x" env.registry = some m) :
    ((appLoad env "x|x" prev).2).map Slot.name = ["x1", "x2"] ∧
    ((appLoad env "x" prev').2).map Slot.name = ["x"] ∧
    (∀ (comps : List String) (counter : Nat),
      (∀ c ∈ comps, (loaderLoad env c).isSome) →
      ∃ slots, loadComponents env comps.length comps counter = .ok (some slots) ∧
        slots.map Slot.name = displayNames comps.length comps counter) := by
  have hsplit2 : pySplit '|' "x|x" = ["x", "x"] := by decide
  have hsplit1 : pySplit '|' "x" = ["x"] := by decide
  have hx : (loaderLoad env "x").isSome := by simp [loaderLoad, h]
  refine ⟨?_, ?_, fun comps counter hall =>
    loadComponents_units env comps.length comps counter hall⟩
  · rw [appLoad, hsplit2]
    obtain ⟨slots, h1, h2⟩ := loadComponents_units env 2 ["x", "x"] 1
      (by intro c hc; simp only [List.mem_cons, List.not_mem_nil, or_false] at hc
          rcases hc with rfl | rfl <;> exact hx)
    have : appLoadComps env ["x", "x"] prev = (.ok (), slots) := by
      simp only [appLoadComps, List.length_cons, List.length_nil, h1]
    rw [this]
    rw [h2]
    decide
  · rw [appLoad, hsplit1]
    obtain ⟨slots, h1, h2⟩ := loadComponents_units env 1 ["x"] 1
      (by intro c hc; simp only [List.mem_cons, List.not_mem_nil, or_false] at hc
          rcases hc with rfl; exact hx)
    have heq : appLoadComps env ["x"] prev' = (.ok (), slots) := by
      simp only [appLoadComps, List.length_cons, List.length_nil, h1]
    rw [heq, h2]
    decide

/-- Witness for `load_suffixes`. -/
theorem load_suffixes_witness :
    (List.lookup "x"
      (Env.registry { registry := [("x", mA0)], shortcuts := [], datas := [] }) =
        some mA0) ∧
    ((appLoad { registry := [("x", mA0)], shortcuts := [], datas := [] } "x|x" []).2).map
        Slot.name = ["x1", "x2"] ∧
    ((appLoad { registry := [("x", mA0)], shortcuts := [], datas := [] } "x" []).2).map
        Slot.name = ["x"] :=
  ⟨rfl,
    (load_suffixes { registry := [("x", mA0)], shortcuts := [], datas := [] } mA0
      [] [] rfl).1,
    (load_suffixes { registry := [("x", mA0)], shortcuts := [], datas := [] } mA0
      [] [] rfl).2.1⟩

/-! ## C5: shortcut defaults are pre-seeded under the exposed key, not the
mapping's target parameter names -/

/-- A module declaring `TARGET` and accepting undeclared arguments. -/
def mDyn : Module :=
  { args := [("TARGET", "0")], dynamicArgs := true, isWireless := false,
    sdrConfig := [], run := fun _ => (true, []) }

/-- A shortcut exposing parameter `P`, mapped to target `TARGET` with
default value `5`. -/
def scC5 : Shortcut :=
  { modules := "u", description := "",
    mapping := [("P", { parameters := ["TARGET"], value := some "5" })] }

def envC5 : Env :=
  { registry := [("u", mDyn)], shortcuts := [("s", scC5)], datas := [] }

/-- Counterexample to C5: loading shortcut `s` (mapping `P ↦ {targets:
[TARGET], default: 5}` over a chain with module `u` declaring `TARGET`)
leaves the mapped underlying argument `TARGET` at its original value `0`;
the default is instead stored under the exposed key `P`.  So the claim
that the mapped underlying unit arguments hold the default after `load`
fails at this input. -/
theorem load_preseed_counterexample :
    scC5.mapping = [("P", { parameters := ["TARGET"], value := some "5" })] ∧
    errOf (appLoad envC5 "s" []).1 = none ∧
    List.lookup "TARGET" (firstShortcutMemberArgs (appLoad envC5 "s" []).2) =
      some "0" ∧
    List.lookup "P" (firstShortcutMemberArgs (appLoad envC5 "s" []).2) =
      some "5" := by
  refine ⟨rfl, ?_, ?_, ?_⟩ <;> decide

theorem preseedMember_single_entry (P v un : String) (m : Module)
    (params : List String)
    (h : m.dynamicArgs = true ∨ hasKey m.args P = true) :
    preseedMember [(P, { parameters := params, value := some v })]
        { name := un, module := some m } =
      (.ok (), { name := un, module := some { m with args := setKey m.args P v } }) := by
  have hcond : (m.dynamicArgs || hasKey m.args P) = true := by
    rcases h with h | h <;> simp [h]
  simp [preseedMember, setMemberSingle, setUnit, hcond]

/-- C5 (amended): when a single-component expression resolves to a
shortcut whose chain is a single module `un`, a mapping entry
`(P, {parameters, value: v})` with a non-null default is applied during
`load` by setting the *exposed* key `P` itself on the member (provided the
member declares `P` or accepts undeclared arguments; otherwise `load`
raises).  The target parameter names of the mapping play no role: every
argument other than `P` — in particular any target name distinct from the
exposed key — keeps its previous value. -/
theorem load_preseed_exposed_key (env : Env) (sname un P v : String)
    (sc : Shortcut) (mU : Module) (prev : List Slot) (params : List String)
    (h0 : pySplit '|' sname = [sname])
    (h1 : loaderLoad env sname = none)
    (h2 : List.lookup sname env.shortcuts = some sc)
    (h3 : sc.mapping = [(P, { parameters := params, value := some v })])
    (h4 : pySplit '|' sc.modules = [un])
    (h5 : loaderLoad env un = some mU)
    (h6 : mU.dynamicArgs = true ∨ hasKey mU.args P = true) :
    (appLoad env sname prev) = (.ok (), [.shortcutS sname
      [{ name := un, module := some { mU with args := setKey mU.args P v } }]
      sc.mapping]) ∧
    List.lookup P (setKey mU.args P v) = some v ∧
    (∀ t, t ≠ P → List.lookup t (setKey mU.args P v) = List.lookup t mU.args) := by
  refine ⟨?_, lookup_setKey_self mU.args P v,
    fun t ht => lookup_setKey_other mU.args P t v ht⟩
  rw [appLoad, h0]
  have hmembers : loadShortcutMembers env sc.mapping 1 [un] 1 =
      (.ok (), [{ name := un, module := some { mU with args := setKey mU.args P v } }]) := by
    rw [loadShortcutMembers]
    have hname : (if (1 : Nat) > 1 then un ++ Nat.repr 1 else un) = un := rfl
    rw [hname, h5, h3, preseedMember_single_entry P v un mU params h6]
    rfl
  have hlc : loadComponents env 1 [sname] 1 = .ok (some [.shortcutS sname
      [{ name := un, module := some { mU with args := setKey mU.args P v } }]
      sc.mapping]) := by
    simp only [loadComponents, h1, h2, h4]
    have hlen : ([un] : List String).length = 1 := rfl
    rw [hlen, hmembers]
    rfl
  simp only [appLoadComps, List.length_cons, List.length_nil, hlc]

/-- Witness for `load_preseed_exposed_key` at the concrete counterexample
environment. -/
theorem load_preseed_exposed_key_witness :
    (pySplit '|' "s" = ["s"] ∧ loaderLoad envC5 "s" = none ∧
      List.lookup "s" envC5.shortcuts = some scC5 ∧
      scC5.mapping = [("P", { parameters := ["TARGET"], value := some "5" })] ∧
      pySplit '|' scC5.modules = ["u"] ∧ loaderLoad envC5 "u" = some mDyn ∧
      mDyn.dynamicArgs = true) ∧
    ((appLoad envC5 "s" []) = (.ok (), [.shortcutS "s"
      [{ name := "u", module := some { mDyn with args := setKey mDyn.args "P" "5" } }]
      scC5.mapping]) ∧
    List.lookup "P" (setKey mDyn.args "P" "5") = some "5" ∧
    (∀ t, t ≠ "P" → List.lookup t (setKey mDyn.args "P" "5") =
      List.lookup t mDyn.args)) :=
  ⟨⟨by decide, rfl, rfl, rfl, by decide, rfl, rfl⟩,
    load_preseed_exposed_key envC5 "s" "u" "P" "5" scC5 mDyn [] ["TARGET"]
      (by decide) rfl rfl rfl (by decide) rfl (Or.inl rfl)⟩

/-! ## C1: alias parameters fan out without rollback -/

theorem hasKey_setKey_existing {α : Type} (l : List (String × α)) (k t : String)
    (v : α) (h : hasKey l k = true) : hasKey (setKey l k v) t = hasKey l t := by
  have hkeys : (setKey l k v).map Prod.fst = l.map Prod.fst := by
    rw [keys_setKey, if_pos h]
  cases hb : hasKey l t
  · cases hb2 : hasKey (setKey l k v) t
    · rfl
    · have hmem := (hasKey_iff_mem (setKey l k v) t).mp hb2
      rw [hkeys] at hmem
      exact absurd ((hasKey_iff_mem l t).mpr hmem) (by simp [hb])
  · exact (hasKey_iff_mem (setKey l k v) t).mpr
      (hkeys ▸ (hasKey_iff_mem l t).mp hb)

theorem lookup_foldl_setKey_not_mem (v : String) :
    ∀ (ps : List String) (l : List (String × String)) (p : String), p ∉ ps →
      List.lookup p (ps.foldl (fun a q => setKey a q v) l) = List.lookup p l := by
  intro ps
  induction ps with
  | nil => intro l p _; rfl
  | cons q rest ih =>
    intro l p hp
    have hq : p ≠ q := fun h => hp (h ▸ List.mem_cons_self _ _)
    have hrest : p ∉ rest := fun h => hp (List.mem_cons_of_mem _ h)
    simp only [List.foldl_cons]
    rw [ih (setKey l q v) p hrest, lookup_setKey_other l q p v hq]

theorem lookup_foldl_setKey_mem (v : String) :
    ∀ (ps : List String) (l : List (String × String)) (p : String), p ∈ ps →
      List.lookup p (ps.foldl (fun a q => setKey a q v) l) = some v := by
  intro ps
  induction ps with
  | nil => intro l p hp; cases hp
  | cons q rest ih =>
    intro l p hp
    simp only [List.foldl_cons]
    by_cases hrest : p ∈ rest
    · exact ih (setKey l q v) p hrest
    · have hq : p = q := (List.mem_cons.mp hp).resolve_right hrest
      subst hq
      rw [lookup_foldl_setKey_not_mem v rest (setKey l p v) p hrest,
        lookup_setKey_self]

/-- One unfolding step of the target loop while `success` is still
truthy. -/
theorem setShortcutLoop_cons_true (v p : String) (rest : List String)
    (members : List UnitSlotData) :
    setShortcutLoop v (p :: rest) members .pyTrue =
      match setMembers p v members with
      | (.error e, members') => (.error e, members')
      | (.ok r, members') => setShortcutLoop v rest members' r := rfl

/-- The target loop of `_set` on a single-member alias chain when every
target is settable on the member: all targets are written in order. -/
theorem setShortcutLoop_single_ok (un v : String) :
    ∀ (params : List String) (m : Module),
      (∀ t ∈ params, (m.dynamicArgs || hasKey m.args t) = true) →
      setShortcutLoop v params [{ name := un, module := some m }] .pyTrue =
        (.ok .pyTrue,
          [{ name := un,
             module := some (withArgs m (params.foldl (fun a t => setKey a t v) m.args)) }]) := by
  intro params
  induction params with
  | nil => intro m _; rfl
  | cons t rest ih =>
    intro m hall
    have ht : (m.dynamicArgs || hasKey m.args t) = true :=
      hall t (List.mem_cons_self _ _)
    have hstep : setMembers t v [{ name := un, module := some m }] =
        (.ok .pyTrue, [{ name := un, module := some (withArgs m (setKey m.args t v)) }]) := by
      simp [setMembers, setMemberSingle, setUnit, ht, withArgs]
    have hrest : ∀ t' ∈ rest,
        ((withArgs m (setKey m.args t v)).dynamicArgs ||
          hasKey (withArgs m (setKey m.args t v)).args t') = true := by
      intro t' ht'
      have h2 := hall t' (List.mem_cons_of_mem _ ht')
      rcases Bool.or_eq_true_iff.mp h2 with h | h
      · simp [withArgs, h]
      · simp [withArgs, hasKey_setKey_mono m.args t t' v h]
    rw [setShortcutLoop_cons_true, hstep]
    show setShortcutLoop v rest
      [{ name := un, module := some (withArgs m (setKey m.args t v)) }] .pyTrue = _
    rw [ih (withArgs m (setKey m.args t v)) hrest]
    rfl

/-- The target loop of `_set` on a single-member alias chain when a target
is not settable: the loop raises `IncorrectParameter` at the first failing
target, and the targets already processed keep their new value. -/
theorem setShortcutLoop_single_err (un v t : String) (rest : List String) :
    ∀ (pre : List String) (m : Module),
      m.dynamicArgs = false → m.isWireless = false →
      (∀ p ∈ pre, hasKey m.args p = true) → hasKey m.args t = false →
      setShortcutLoop v (pre ++ t :: rest) [{ name := un, module := some m }] .pyTrue =
        (.error .incorrectParameter,
          [{ name := un,
             module := some (withArgs m (pre.foldl (fun a q => setKey a q v) m.args)) }]) := by
  intro pre
  induction pre with
  | nil =>
    intro m hdyn hw _ ht
    have hstep : setMembers t v [{ name := un, module := some m }] =
        (.error .incorrectParameter, [{ name := un, module := some m }]) := by
      simp [setMembers, setMemberSingle, setUnit, hdyn, ht, hw]
    rw [List.nil_append, setShortcutLoop_cons_true, hstep]
    rfl
  | cons q pre' ih =>
    intro m hdyn hw hpre ht
    have hq : hasKey m.args q = true := hpre q (List.mem_cons_self _ _)
    have hcond : (m.dynamicArgs || hasKey m.args q) = true := by simp [hq]
    have hstep : setMembers q v [{ name := un, module := some m }] =
        (.ok .pyTrue, [{ name := un, module := some (withArgs m (setKey m.args q v)) }]) := by
      simp [setMembers, setMemberSingle, setUnit, hcond, withArgs]
    have hpre' : ∀ p ∈ pre',
        hasKey (withArgs m (setKey m.args q v)).args p = true := by
      intro p hp
      rw [show (withArgs m (setKey m.args q v)).args = setKey m.args q v from rfl,
        hasKey_setKey_existing m.args q p v hq]
      exact hpre p (List.mem_cons_of_mem _ hp)
    have ht' : hasKey (withArgs m (setKey m.args q v)).args t = false := by
      rw [show (withArgs m (setKey m.args q v)).args = setKey m.args q v from rfl,
        hasKey_setKey_existing m.args q t v hq]
      exact ht
    rw [List.cons_append, setShortcutLoop_cons_true, hstep]
    show setShortcutLoop v (pre' ++ t :: rest)
      [{ name := un, module := some (withArgs m (setKey m.args q v)) }] .pyTrue = _
    rw [ih (withArgs m (setKey m.args q v)) hdyn hw hpre' ht']
    rfl

/-- C1 (amended): for an alias slot whose member chain is a single loaded,
non-wireless module and a declared alias parameter with targets `params`:
if every target is settable, setting the alias parameter writes value `v`
to all targets and commits `v` as the mapping entry's current value; if
some target is not settable (and the module takes no undeclared
arguments), the call raises `IncorrectParameter` and the mapping's current
value is *not* committed, but the targets processed before the failing one
keep the new value — the underlying unit arguments are not rolled back. -/
theorem alias_set_spec (sname un P v : String) (m : Module)
    (params : List String) (e0 : Option String)
    (mapping : List (String × MappingEntry))
    (hmap : List.lookup P mapping = some { parameters := params, value := e0 })
    (hw : m.isWireless = false) :
    ((∀ t ∈ params, (m.dynamicArgs || hasKey m.args t) = true) →
      appSetSlots P v [.shortcutS sname [{ name := un, module := some m }] mapping] =
        (.ok .pyTrue, [.shortcutS sname
          [{ name := un,
             module := some (withArgs m (params.foldl (fun a t => setKey a t v) m.args)) }]
          (setKey mapping P { parameters := params, value := some v })]) ∧
      ∀ t ∈ params,
        List.lookup t (params.foldl (fun a t' => setKey a t' v) m.args) = some v) ∧
    (∀ pre t rest, params = pre ++ t :: rest → m.dynamicArgs = false →
      (∀ p ∈ pre, hasKey m.args p = true) → hasKey m.args t = false →
      appSetSlots P v [.shortcutS sname [{ name := un, module := some m }] mapping] =
        (.error .incorrectParameter, [.shortcutS sname
          [{ name := un,
             module := some (withArgs m (pre.foldl (fun a q => setKey a q v) m.args)) }]
          mapping]) ∧
      ∀ p ∈ pre,
        List.lookup p (pre.foldl (fun a q => setKey a q v) m.args) = some v) := by
  constructor
  · intro hall
    constructor
    · simp only [appSetSlots, setSingleSlot, setShortcutParam, hmap,
        setShortcutLoop_single_ok un v params m hall, PyVal.truthy, if_true]
    · exact fun t ht => lookup_foldl_setKey_mem v params m.args t ht
  · intro pre t rest hsplit hdyn hpre ht
    constructor
    · subst hsplit
      simp only [appSetSlots, setSingleSlot, setShortcutParam, hmap,
        setShortcutLoop_single_err un v t rest pre m hdyn hw hpre ht]
    · exact fun p hp => lookup_foldl_setKey_mem v pre m.args p hp

/-- The concrete alias slot of the C1 counterexample: one member `u`
declaring only argument `A` (initial value `0`), alias parameter `P`
fanning out to targets `A` and `B`. -/
def slotC1 : Slot :=
  .shortcutS "s" [{ name := "u", module := some mA0 }]
    [("P", { parameters := ["A", "B"], value := none })]

/-- Counterexample to C1: setting alias parameter `P` to `v` fails (the
second target `B` is not settable, raising `IncorrectParameter`), yet the
first target `A` has already been overwritten from `0` to `v` — the
underlying unit arguments are *not* left unmutated on failure. -/
theorem alias_set_counterexample :
    errOf (appSetSlots "P" "v" [slotC1]).1 = some .incorrectParameter ∧
    List.lookup "A" (firstShortcutMemberArgs [slotC1]) = some "0" ∧
    List.lookup "A" (firstShortcutMemberArgs (appSetSlots "P" "v" [slotC1]).2) =
      some "v" := by
  refine ⟨?_, ?_, ?_⟩ <;> decide

/-- Witness for `alias_set_spec`, instantiated at the counterexample slot
(failure direction: prefix `[A]` succeeds, target `B` fails). -/
theorem alias_set_spec_witness :
    (List.lookup "P" [("P", ({ parameters := ["A", "B"], value := none } : MappingEntry))] =
        some ({ parameters := ["A", "B"], value := none } : MappingEntry) ∧
      mA0.isWireless = false ∧ (["A", "B"] : List String) = ["A"] ++ "B" :: [] ∧
      mA0.dynamicArgs = false ∧ (∀ p ∈ (["A"] : List String), hasKey mA0.args p = true) ∧
      hasKey mA0.args "B" = false) ∧
    (appSetSlots "P" "v" [slotC1] =
      (.error .incorrectParameter, [.shortcutS "s"
        [{ name := "u",
           module := some (withArgs mA0
             ((["A"] : List String).foldl (fun a q => setKey a q "v") mA0.args)) }]
        [("P", { parameters := ["A", "B"], value := none })]]) ∧
    ∀ p ∈ (["A"] : List String),
      List.lookup p ((["A"] : List String).foldl (fun a q => setKey a q "v") mA0.args) =
        some "v") :=
  ⟨⟨rfl, rfl, rfl, rfl, by decide, by decide⟩,
    (alias_set_spec "s" "u" "P" "v" mA0 ["A", "B"] none
      [("P", ({ parameters := ["A", "B"], value := none } : MappingEntry))] rfl rfl).2
      ["A"] "B" [] rfl rfl (by decide) (by decide)⟩

/-! ## C3: fail-fast is per-loop, not per-pipeline -/

/-- A module with no arguments whose execution fails. -/
def mFail : Module :=
  { args := [], dynamicArgs := false, isWireless := false,
    sdrConfig := [], run := fun _ => (false, []) }

/-- A module with no arguments whose execution succeeds with no output. -/
def mOk : Module :=
  { args := [], dynamicArgs := false, isWireless := false,
    sdrConfig := [], run := fun _ => (true, []) }

/-- Counterexample to C3: in the pipeline `[shortcut s (members a, b),
unit u2]` the member `a` fails; the claim says no later stage executes,
but the trace shows that `u2` still executes (only the shortcut's
remaining member `b` is skipped). -/
theorem run_fail_fast_counterexample :
    traceNames (appRun [.shortcutS "s" [{ name := "a", module := some mFail },
        { name := "b", module := some mOk }] [],
      .unitS { name := "u2", module := some mOk }]) = ["a", "u2"] ∧
    traceSuccesses (appRun [.shortcutS "s" [{ name := "a", module := some mFail },
        { name := "b", module := some mOk }] [],
      .unitS { name := "u2", module := some mOk }]) = [false, true] := by
  exact ⟨by decide, by decide⟩

theorem applyCarried_nil (m : Module) : applyCarried [] m = m := rfl

/-- C3 (amended): a failing unit slot stops the whole pipeline — in a
3-stage pipeline whose first stage fails, stages 2 and 3 never execute —
but a failure inside a shortcut's members only skips that shortcut's
remaining members: the outer pipeline continues with the next slot. -/
theorem run_fail_fast_spec :
    (∀ (n1 : String) (m1 : Module) (s2 s3 : Slot) (out : List (String × String)),
      m1.run m1.args = (false, out) →
      runSlots [.unitS { name := n1, module := some m1 }, s2, s3] [] =
        .ok ([(⟨n1, m1.args, false, out⟩ : Event)], [])) ∧
    (∀ (sname nA nB : String) (mA mB : Module)
      (mapping : List (String × MappingEntry)) (rest : List Slot)
      (out : List (String × String)),
      mA.run mA.args = (false, out) →
      runSlots (.shortcutS sname [{ name := nA, module := some mA },
          { name := nB, module := some mB }] mapping :: rest) [] =
        Except.map (fun p => ((⟨nA, mA.args, false, out⟩ : Event) :: p.1, p.2))
          (runSlots rest [])) := by
  constructor
  · intro n1 m1 s2 s3 out h
    simp only [runSlots, applyCarried_nil, h]
    rfl
  · intro sname nA nB mA mB mapping rest out h
    have hm : runMembers [{ name := nA, module := some mA },
        { name := nB, module := some mB }] [] =
        .ok ([(⟨nA, mA.args, false, out⟩ : Event)], []) := by
      simp only [runMembers, applyCarried_nil, h]
      rfl
    simp only [runSlots, hm]
    cases hrs : runSlots rest [] with
    | error e => rfl
    | ok p => rfl

/-- Witness for `run_fail_fast_spec` (first conjunct at a concrete 3-stage
pipeline, second at the counterexample pipeline). -/
theorem run_fail_fast_spec_witness :
    (mFail.run mFail.args = (false, []) ∧
      runSlots [.unitS { name := "f1", module := some mFail },
          .unitS { name := "f2", module := some mOk },
          .unitS { name := "f3", module := some mOk }] [] =
        .ok ([(⟨"f1", mFail.args, false, []⟩ : Event)], [])) ∧
    runSlots [.shortcutS "s" [{ name := "a", module := some mFail },
        { name := "b", module := some mOk }] [],
      .unitS { name := "u2", module := some mOk }] [] =
      Except.map (fun p => ((⟨"a", mFail.args, false, []⟩ : Event) :: p.1, p.2))
        (runSlots [.unitS { name := "u2", module := some mOk }] []) :=
  ⟨⟨rfl, run_fail_fast_spec.1 "f1" mFail _ _ [] rfl⟩,
    run_fail_fast_spec.2 "s" "a" "b" mFail mOk []
      [.unitS { name := "u2", module := some mOk }] [] rfl⟩

/-! ## C4: output carrying between stages -/

theorem applyCarried_cons (kv : String × String) (rest : List (String × String))
    (m : Module) :
    applyCarried (kv :: rest) m =
      applyCarried rest (if hasKey m.args kv.1 || m.dynamicArgs then
        { m with args := setKey m.args kv.1 kv.2 } else m) := rfl

theorem applyCarried_run (c : List (String × String)) :
    ∀ m : Module, (applyCarried c m).run = m.run := by
  induction c with
  | nil => intro m; rfl
  | cons kv rest ih =>
    intro m
    rw [applyCarried_cons]
    by_cases hc : (hasKey m.args kv.1 || m.dynamicArgs) = true
    · rw [if_pos hc]; exact ih _
    · rw [if_neg hc]; exact ih m

theorem applyCarried_dynamicArgs (c : List (String × String)) :
    ∀ m : Module, (applyCarried c m).dynamicArgs = m.dynamicArgs := by
  induction c with
  | nil => intro m; rfl
  | cons kv rest ih =>
    intro m
    rw [applyCarried_cons]
    by_cases hc : (hasKey m.args kv.1 || m.dynamicArgs) = true
    · rw [if_pos hc]; exact ih _
    · rw [if_neg hc]; exact ih m

theorem keys_nodup_setKey {α : Type} (l : List (String × α)) (k : String) (v : α)
    (h : (l.map Prod.fst).Nodup) : ((setKey l k v).map Prod.fst).Nodup := by
  rw [keys_setKey]
  cases hk : hasKey l k
  · simp only [Bool.false_eq_true, if_false]
    refine List.Nodup.append h (List.nodup_singleton k) ?_
    intro a ha hb
    rw [List.mem_singleton] at hb
    subst hb
    exact absurd ((hasKey_iff_mem l a).mpr ha) (by simp [hk])
  · simpa using h

theorem keys_nodup_updateAll :
    ∀ (out c : List (String × String)), (c.map Prod.fst).Nodup →
      ((updateAll c out).map Prod.fst).Nodup := by
  intro out
  induction out with
  | nil => intro c h; exact h
  | cons kv rest ih =>
    intro c h
    exact ih (setKey c kv.1 kv.2) (keys_nodup_setKey c kv.1 kv.2 h)

theorem lookup_updateAll_not_mem (K : String) :
    ∀ (out c : List (String × String)), K ∉ out.map Prod.fst →
      List.lookup K (updateAll c out) = List.lookup K c := by
  intro out
  induction out with
  | nil => intro c _; rfl
  | cons kv rest ih =>
    intro c h
    have hk : K ≠ kv.1 := fun he => h (by simp [he])
    have hrest : K ∉ rest.map Prod.fst := fun hm => h (by simp [hm])
    show List.lookup K (updateAll (setKey c kv.1 kv.2) rest) = _
    rw [ih _ hrest, lookup_setKey_other c kv.1 K kv.2 hk]

theorem lookup_updateAll_mem (K w : String) :
    ∀ (out c : List (String × String)), List.lookup K out = some w →
      (out.map Prod.fst).Nodup →
      List.lookup K (updateAll c out) = some w := by
  intro out
  induction out with
  | nil => intro c h _; simp [List.lookup] at h
  | cons kv rest ih =>
    intro c h hnd
    have hnd' : (kv.1 :: rest.map Prod.fst).Nodup := hnd
    by_cases hk : K = kv.1
    · have hw : kv.2 = w := by
        simpa [List.lookup, show (K == kv.1) = true from beq_iff_eq.mpr hk] using h
      have hKrest : K ∉ rest.map Prod.fst := by
        rw [hk]; exact (List.nodup_cons.mp hnd').1
      show List.lookup K (updateAll (setKey c kv.1 kv.2) rest) = some w
      rw [lookup_updateAll_not_mem K rest _ hKrest, hk, lookup_setKey_self, hw]
    · have hrest : List.lookup K rest = some w := by
        simpa [List.lookup, beq_eq_false_iff_ne.mpr hk] using h
      exact ih (setKey c kv.1 kv.2) hrest (List.nodup_cons.mp hnd').2

theorem lookup_applyCarried_not_mem (K : String) :
    ∀ (carried : List (String × String)) (m : Module), K ∉ carried.map Prod.fst →
      List.lookup K (applyCarried carried m).args = List.lookup K m.args := by
  intro carried
  induction carried with
  | nil => intro m _; rfl
  | cons kv rest ih =>
    intro m h
    have hk : K ≠ kv.1 := fun he => h (by simp [he])
    have hrest : K ∉ rest.map Prod.fst := fun hm => h (by simp [hm])
    rw [applyCarried_cons]
    by_cases hc : (hasKey m.args kv.1 || m.dynamicArgs) = true
    · rw [if_pos hc, ih _ hrest]
      exact lookup_setKey_other m.args kv.1 K kv.2 hk
    · rw [if_neg hc]
      exact ih m hrest

/-- If the carried table holds `v` under key `K` (with distinct keys) and
the module declares `K` or accepts undeclared arguments, then after the
carried-overwrite loop the module's argument `K` holds `v`. -/
theorem lookup_applyCarried (K v : String) :
    ∀ (carried : List (String × String)) (m : Module),
      (carried.map Prod.fst).Nodup → List.lookup K carried = some v →
      (hasKey m.args K || m.dynamicArgs) = true →
      List.lookup K (applyCarried carried m).args = some v := by
  intro carried
  induction carried with
  | nil => intro m _ h _; simp [List.lookup] at h
  | cons kv rest ih =>
    intro m hnd hlk hcond
    have hnd' : (kv.1 :: rest.map Prod.fst).Nodup := hnd
    rw [applyCarried_cons]
    by_cases hk : K = kv.1
    · have hv : kv.2 = v := by
        simpa [List.lookup, show (K == kv.1) = true from beq_iff_eq.mpr hk] using hlk
      have hKrest : K ∉ rest.map Prod.fst := by
        rw [hk]; exact (List.nodup_cons.mp hnd').1
      have hcset : (hasKey m.args kv.1 || m.dynamicArgs) = true := by
        rw [← hk]; exact hcond
      rw [if_pos hcset, lookup_applyCarried_not_mem K rest _ hKrest]
      show List.lookup K (setKey m.args kv.1 kv.2) = some v
      rw [hk, lookup_setKey_self, hv]
    · have hrest : List.lookup K rest = some v := by
        simpa [List.lookup, beq_eq_false_iff_ne.mpr hk] using hlk
      have hndrest := (List.nodup_cons.mp hnd').2
      by_cases hc : (hasKey m.args kv.1 || m.dynamicArgs) = true
      · rw [if_pos hc]
        refine ih _ hndrest hrest ?_
        rcases Bool.or_eq_true_iff.mp hcond with h | h
        · simp [hasKey_setKey_mono m.args kv.1 K kv.2 h]
        · simp [h]
      · rw [if_neg hc]
        exact ih m hndrest hrest hcond

/-- C4: in a two-stage pipeline where stage 1 succeeds with output
containing key `K` and stage 2 declares `K` (or accepts undeclared
arguments), stage 2 executes with its `K` argument equal to stage 1's
output value — whatever the user had set before — and if stage 2 itself
succeeds with an output containing `K`, the final carried table holds
stage 2's value for `K` (last-writer-wins). -/
theorem run_output_carry (n1 n2 K v : String) (m1 m2 : Module)
    (out1 : List (String × String))
    (h1 : m1.run m1.args = (true, out1))
    (hnd : (out1.map Prod.fst).Nodup)
    (hK : List.lookup K out1 = some v)
    (hdecl : (hasKey m2.args K || m2.dynamicArgs) = true) :
    ∃ e2 c, runSlots [.unitS { name := n1, module := some m1 },
        .unitS { name := n2, module := some m2 }] [] =
      .ok ([(⟨n1, m1.args, true, out1⟩ : Event), e2], c) ∧
    e2.name = n2 ∧ List.lookup K e2.argsUsed = some v ∧
    (∀ out2 w, m2.run e2.argsUsed = (true, out2) →
      (out2.map Prod.fst).Nodup → List.lookup K out2 = some w →
      List.lookup K c = some w) := by
  have hc1nd : ((updateAll [] out1).map Prod.fst).Nodup :=
    keys_nodup_updateAll out1 [] (by simp)
  have hKc1 : List.lookup K (updateAll [] out1) = some v :=
    lookup_updateAll_mem K v out1 [] hK hnd
  have hargs2 : List.lookup K (applyCarried (updateAll [] out1) m2).args = some v :=
    lookup_applyCarried K v (updateAll [] out1) m2 hc1nd hKc1 hdecl
  have hrun2 : (applyCarried (updateAll [] out1) m2).run = m2.run :=
    applyCarried_run (updateAll [] out1) m2
  cases hr2 : m2.run (applyCarried (updateAll [] out1) m2).args with
  | mk succ2 out2 =>
    refine ⟨⟨n2, (applyCarried (updateAll [] out1) m2).args, succ2, out2⟩,
      if succ2 then updateAll (updateAll [] out1) out2 else updateAll [] out1,
      ?_, rfl, hargs2, ?_⟩
    · simp only [runSlots, applyCarried_nil, h1, hrun2, hr2]
      cases succ2 <;> rfl
    · intro out2' w h2 hnd2 hw
      rw [hr2] at h2
      have hs : succ2 = true := (Prod.mk.injEq _ _ _ _ ▸ h2 : _ ∧ _).1
      have ho : out2 = out2' := (Prod.mk.injEq _ _ _ _ ▸ h2 : _ ∧ _).2
      subst hs
      subst ho
      simp only [if_true]
      exact lookup_updateAll_mem K w out2 (updateAll [] out1) hw hnd2

/-- A stage-1 module producing output `K = v1`. -/
def mProduce : Module :=
  { args := [], dynamicArgs := false, isWireless := false,
    sdrConfig := [], run := fun _ => (true, [("K", "v1")]) }

/-- A stage-2 module declaring `K` (user preset `"user"`) whose output
also carries `K`. -/
def mConsume : Module :=
  { args := [("K", "user")], dynamicArgs := false, isWireless := false,
    sdrConfig := [], run := fun _ => (true, [("K", "v2")]) }

/-- Witness for `run_output_carry` at a concrete two-stage pipeline. -/
theorem run_output_carry_witness :
    (mProduce.run mProduce.args = (true, [("K", "v1")]) ∧
      ((([("K", "v1")] : List (String × String)).map Prod.fst).Nodup) ∧
      List.lookup "K" [("K", "v1")] = some "v1" ∧
      (hasKey mConsume.args "K" || mConsume.dynamicArgs) = true) ∧
    (∃ e2 c, runSlots [.unitS { name := "p", module := some mProduce },
        .unitS { name := "q", module := some mConsume }] [] =
      .ok ([(⟨"p", mProduce.args, true, [("K", "v1")]⟩ : Event), e2], c) ∧
    e2.name = "q" ∧ List.lookup "K" e2.argsUsed = some "v1" ∧
    (∀ out2 w, mConsume.run e2.argsUsed = (true, out2) →
      (out2.map Prod.fst).Nodup → List.lookup "K" out2 = some w →
      List.lookup "K" c = some w)) :=
  ⟨⟨rfl, by decide, by decide, by decide⟩,
    run_output_carry "p" "q" "K" "v1" mProduce mConsume [("K", "v1")]
      rfl (by decide) (by decide) (by decide)⟩

end Mirage
